import Mathlib

/-!
# Verification of the brain-saas intent-to-action core

Shallow embedding of the decision logic of `app/services/google_service.py`,
`app/services/notification_service.py` and the routing in
`app/api/endpoints/telegram.py`, together with proofs of the specified
properties.

Machine strings are modelled as Lean `String`/`List Char`; the Unicode data
consulted by `unicodedata` (NFD decompositions, the Mn category, lowercase
mappings) is modelled by explicit finite tables covering the Czech/Latin
repertoire the program works with (its keyword lists, calendar names and
message templates); every other code point decomposes to itself, is not a
combining mark, and is its own lowercase, which matches the Unicode data for
the unaccented characters actually reaching these functions.
-/

namespace BrainSaas

/-! ## Text normalisation (`normalize_text`, google_service.py lines 22-27) -/

/-- Canonical (NFD) decompositions of the precomposed Latin letters in the
modelled repertoire: each maps to its base letter followed by a combining
mark (acute U+0301, ring above U+030A, or caron U+030C).  Characters absent
from the table decompose to themselves. -/
def nfdTable : List (Char × List Char) := [
  ('á', ['a', '́']), ('é', ['e', '́']), ('í', ['i', '́']),
  ('ó', ['o', '́']), ('ú', ['u', '́']), ('ý', ['y', '́']),
  ('č', ['c', '̌']), ('ď', ['d', '̌']), ('ě', ['e', '̌']),
  ('ň', ['n', '̌']), ('ř', ['r', '̌']), ('š', ['s', '̌']),
  ('ť', ['t', '̌']), ('ž', ['z', '̌']), ('ů', ['u', '̊']),
  ('Á', ['A', '́']), ('É', ['E', '́']), ('Í', ['I', '́']),
  ('Ó', ['O', '́']), ('Ú', ['U', '́']), ('Ý', ['Y', '́']),
  ('Č', ['C', '̌']), ('Ď', ['D', '̌']), ('Ě', ['E', '̌']),
  ('Ň', ['N', '̌']), ('Ř', ['R', '̌']), ('Š', ['S', '̌']),
  ('Ť', ['T', '̌']), ('Ž', ['Z', '̌']), ('Ů', ['U', '̊'])]

/-- Model of `unicodedata.normalize('NFD', ·)` applied to one code point. -/
def nfdChar (c : Char) : List Char :=
  match nfdTable.find? (fun p => p.1 == c) with
  | some p => p.2
  | none => [c]

/-- Model of `unicodedata.category(c) == 'Mn'`: the whole Combining
Diacritical Marks block U+0300..U+036F has general category Mn. -/
def isMnChar (c : Char) : Bool :=
  0x300 ≤ c.toNat && c.toNat ≤ 0x36F

/-- Lowercase mappings (model of `str.lower()`, one code point at a time)
for the modelled repertoire: ASCII A-Z and the precomposed Czech capitals.
Characters absent from the table are their own lowercase. -/
def lowerTable : List (Char × Char) := [
  ('A', 'a'), ('B', 'b'), ('C', 'c'), ('D', 'd'), ('E', 'e'), ('F', 'f'),
  ('G', 'g'), ('H', 'h'), ('I', 'i'), ('J', 'j'), ('K', 'k'), ('L', 'l'),
  ('M', 'm'), ('N', 'n'), ('O', 'o'), ('P', 'p'), ('Q', 'q'), ('R', 'r'),
  ('S', 's'), ('T', 't'), ('U', 'u'), ('V', 'v'), ('W', 'w'), ('X', 'x'),
  ('Y', 'y'), ('Z', 'z'),
  ('Á', 'á'), ('É', 'é'), ('Í', 'í'), ('Ó', 'ó'), ('Ú', 'ú'), ('Ý', 'ý'),
  ('Č', 'č'), ('Ď', 'ď'), ('Ě', 'ě'), ('Ň', 'ň'), ('Ř', 'ř'), ('Š', 'š'),
  ('Ť', 'ť'), ('Ž', 'ž'), ('Ů', 'ů')]

/-- One-code-point lowercase. -/
def lowerChar (c : Char) : Char :=
  match lowerTable.find? (fun p => p.1 == c) with
  | some p => p.2
  | none => c

/-- Function `normalize_text` (google_service.py 22-27): NFD-decompose, drop the
combining marks (category Mn), lowercase the rest. -/
def normalize_text (s : String) : String :=
  String.mk ((((s.data).flatMap nfdChar).filter (fun c => !(isMnChar c))).map lowerChar)

/-- A code point with no entry in the decomposition table. -/
def FullyDecomposed (c : Char) : Prop :=
  nfdTable.find? (fun p => p.1 == c) = none

/-- Every character produced by a table decomposition has no further
decomposition (finite check over the table). -/
theorem nfdTable_outputs_decomposed :
    ∀ p ∈ nfdTable, ∀ d ∈ p.2, nfdTable.find? (fun q => q.1 == d) = none := by
  decide

/-- No character produced by a table decomposition is itself an uppercase
with a lowercase mapping whose image would recompose; concretely, the
lowercase image of a fully decomposed character is fully decomposed. -/
theorem lowerTable_decomposed_to_decomposed :
    ∀ p ∈ lowerTable, nfdTable.find? (fun q => q.1 == p.1) = none →
      nfdTable.find? (fun q => q.1 == p.2) = none := by
  decide

/-- Lowercase images are never themselves uppercase table sources. -/
theorem lowerTable_outputs_fixed :
    ∀ p ∈ lowerTable, lowerTable.find? (fun q => q.1 == p.2) = none := by
  decide

/-- Lowercase images are never combining marks. -/
theorem lowerTable_outputs_not_mn :
    ∀ p ∈ lowerTable, isMnChar p.2 = false := by
  decide

theorem nfdChar_mem_decomposed {c d : Char} (h : d ∈ nfdChar c) :
    FullyDecomposed d := by
  unfold nfdChar at h
  unfold FullyDecomposed
  cases hf : nfdTable.find? (fun p => p.1 == c) with
  | none =>
      rw [hf] at h
      simp only [List.mem_singleton] at h
      subst h
      exact hf
  | some p =>
      rw [hf] at h
      exact nfdTable_outputs_decomposed p (List.mem_of_find?_eq_some hf) d h

theorem lowerChar_decomposed {d : Char} (h : FullyDecomposed d) :
    FullyDecomposed (lowerChar d) := by
  unfold FullyDecomposed at *
  unfold lowerChar
  cases hf : lowerTable.find? (fun p => p.1 == d) with
  | none => exact h
  | some p =>
      have hmem := List.mem_of_find?_eq_some hf
      have hbeq := List.find?_some hf
      have hp1 : p.1 = d := by
        simpa using hbeq
      exact lowerTable_decomposed_to_decomposed p hmem (hp1 ▸ h)

theorem nfdChar_of_decomposed {d : Char} (h : FullyDecomposed d) :
    nfdChar d = [d] := by
  unfold nfdChar
  rw [h]

theorem lowerChar_not_mn {d : Char} (h : isMnChar d = false) :
    isMnChar (lowerChar d) = false := by
  unfold lowerChar
  cases hf : lowerTable.find? (fun p => p.1 == d) with
  | none => exact h
  | some p => exact lowerTable_outputs_not_mn p (List.mem_of_find?_eq_some hf)

theorem lowerChar_idem (d : Char) : lowerChar (lowerChar d) = lowerChar d := by
  unfold lowerChar
  cases hf : lowerTable.find? (fun p => p.1 == d) with
  | none => rw [hf]
  | some p => rw [lowerTable_outputs_fixed p (List.mem_of_find?_eq_some hf)]

theorem flatMap_eq_self_of_singleton {l : List Char} {f : Char → List Char}
    (h : ∀ e ∈ l, f e = [e]) : l.flatMap f = l := by
  induction l with
  | nil => rfl
  | cons a as ih =>
      simp only [List.flatMap_cons, h a (List.mem_cons_self a as)]
      simp only [List.singleton_append, List.cons.injEq, true_and]
      exact ih (fun e he => h e (List.mem_cons_of_mem a he))

theorem map_eq_self_of_fixed {l : List Char} {f : Char → Char}
    (h : ∀ e ∈ l, f e = e) : l.map f = l := by
  induction l with
  | nil => rfl
  | cons a as ih =>
      simp only [List.map_cons, h a (List.mem_cons_self a as), List.cons.injEq, true_and]
      exact ih (fun e he => h e (List.mem_cons_of_mem a he))

/-- Every character of a normalised string is fully decomposed, not a
combining mark, and its own lowercase. -/
theorem normalize_text_chars (s : String) :
    ∀ e ∈ (normalize_text s).data,
      FullyDecomposed e ∧ isMnChar e = false ∧ lowerChar e = e := by
  intro e he
  unfold normalize_text at he
  simp only [List.mem_map, List.mem_filter] at he
  obtain ⟨d, ⟨hdmem, hdnotmn⟩, hde⟩ := he
  have hdd : FullyDecomposed d := by
    rw [List.mem_flatMap] at hdmem
    obtain ⟨c, _, hdc⟩ := hdmem
    exact nfdChar_mem_decomposed hdc
  have hdnotmn' : isMnChar d = false := by
    simpa using hdnotmn
  refine ⟨hde ▸ lowerChar_decomposed hdd, hde ▸ lowerChar_not_mn hdnotmn', ?_⟩
  rw [← hde, lowerChar_idem]

/-- C9: `normalize` is idempotent (`normalize(normalize(s)) == normalize(s)`),
its output contains no character of Unicode category Mn (combining marks),
and the empty string maps to the empty string
(google_service.py 22-27, spec section 4.1 and section 8). -/
theorem normalize_text_fixed {t : String}
    (ht : ∀ e ∈ t.data, FullyDecomposed e ∧ isMnChar e = false ∧ lowerChar e = e) :
    normalize_text t = t := by
  have h1 : t.data.flatMap nfdChar = t.data :=
    flatMap_eq_self_of_singleton (fun e he => nfdChar_of_decomposed (ht e he).1)
  have h2 : t.data.filter (fun c => !(isMnChar c)) = t.data := by
    refine List.filter_eq_self.mpr (fun a ha => ?_)
    rw [(ht a ha).2.1]
    rfl
  have h3 : t.data.map lowerChar = t.data :=
    map_eq_self_of_fixed (fun e he => (ht e he).2.2)
  unfold normalize_text
  rw [h1, h2, h3]

/-- C9: `normalize` is idempotent (`normalize(normalize(s)) == normalize(s)`),
its output contains no character of Unicode category Mn (combining marks),
and the empty string maps to the empty string
(google_service.py 22-27, spec section 4.1 and section 8). -/
theorem normalize_text_spec (s : String) :
    normalize_text (normalize_text s) = normalize_text s ∧
    (∀ c ∈ (normalize_text s).data, isMnChar c = false) ∧
    normalize_text "" = "" :=
  ⟨normalize_text_fixed (normalize_text_chars s),
   fun c hc => ((normalize_text_chars s) c hc).2.1, rfl⟩

/-- Witness for C9 at a concrete input: the Czech word from the repository's
own tests. -/
theorem normalize_text_spec_witness :
    normalize_text (normalize_text "Schůzka") = normalize_text "Schůzka" ∧
    normalize_text "Schůzka" = "schuzka" :=
  ⟨(normalize_text_spec "Schůzka").1, by decide⟩

/-! ## Category classifier (`detect_event_category`, google_service.py 143-157) -/

/-- Keyword list `WORK_KEYWORDS` (google_service.py 43-48). -/
def WORK_KEYWORDS : List String := [
  "schůzka", "meeting", "klient", "projekt", "práce", "deadline",
  "prezentace", "call", "conference", "office", "firma", "business",
  "report", "team", "sprint", "review", "standup", "sync",
  "email", "mail", "úkol", "task", "budget", "smlouva", "contract"]

/-- Keyword list `PERSONAL_KEYWORDS` (google_service.py 50-56). -/
def PERSONAL_KEYWORDS : List String := [
  "rodina", "manželka", "děti", "narozeniny", "výročí", "doktor",
  "lékař", "nákup", "domácnost", "večeře", "oběd", "víkend",
  "dovolená", "sport", "fitness", "kamarád", "přátelé", "party",
  "oslava", "pes", "kočka", "domov", "byt", "dům", "auto",
  "hobby", "volno", "relax", "film", "koncert", "divadlo"]

/-- Python's `needle in hay` substring containment on strings. -/
def isSubstring (needle hay : List Char) : Bool :=
  hay.tails.any (fun t => needle.isPrefixOf t)

/-- Score `sum(1 for keyword in keywords if normalize_text(keyword) in text_normalized)`. -/
def keywordScore (keywords : List String) (textNormalized : List Char) : Nat :=
  keywords.countP (fun k => isSubstring (normalize_text k).data textNormalized)

/-- Work-keyword score of a raw text. -/
def work_score (text : String) : Nat :=
  keywordScore WORK_KEYWORDS (normalize_text text).data

/-- Personal-keyword score of a raw text. -/
def personal_score (text : String) : Nat :=
  keywordScore PERSONAL_KEYWORDS (normalize_text text).data

/-- Function `detect_event_category` (google_service.py 143-157): normalise, score
both keyword lists by diacritics-free substring containment, return
`personal` only on a strictly larger personal score, else `work`. -/
def detect_event_category (text : String) : String :=
  if personal_score text > work_score text then "personal" else "work"

/-- C4: the classifier returns `personal` iff the personal-keyword count
strictly exceeds the work-keyword count, and `work` in every other case,
ties (including 0-0) included (google_service.py 143-157, spec section 4.2). -/
theorem detect_event_category_spec (text : String) :
    (detect_event_category text = "personal" ↔ personal_score text > work_score text) ∧
    (detect_event_category text = "work" ↔ ¬ personal_score text > work_score text) := by
  unfold detect_event_category
  by_cases h : personal_score text > work_score text
  · simp [h]
  · simp [h]

/-- Witness for C4 at concrete inputs: a personal-majority text from the
repository tests classifies as personal, and a 0-0 tie classifies as work. -/
theorem detect_event_category_spec_witness :
    detect_event_category "narozeniny děti rodina" = "personal" ∧
    personal_score "nic" = 0 ∧ work_score "nic" = 0 ∧
    detect_event_category "nic" = "work" := by
  refine ⟨(detect_event_category_spec "narozeniny děti rodina").1.mpr (by decide),
    by decide, by decide,
    (detect_event_category_spec "nic").2.mpr (by decide)⟩

/-! ## Calendar dates (model of `datetime.date` arithmetic and
`strptime('%Y-%m-%d')` / `strftime('%Y-%m-%d')`) -/

/-- Gregorian leap-year rule, as used by `datetime`. -/
def isLeapYear (y : Nat) : Bool :=
  (y % 4 == 0 && y % 100 != 0) || y % 400 == 0

/-- Days in a month of a given year. -/
def daysInMonth (y m : Nat) : Nat :=
  if m == 2 then (if isLeapYear y then 29 else 28)
  else if m == 4 || m == 6 || m == 9 || m == 11 then 30
  else 31

/-- A calendar date. -/
structure Date where
  year : Nat
  month : Nat
  day : Nat
deriving DecidableEq, Repr

/-- Successor date, `d + timedelta(days=1)`. -/
def nextDay (d : Date) : Date :=
  if d.day < daysInMonth d.year d.month then ⟨d.year, d.month, d.day + 1⟩
  else if d.month < 12 then ⟨d.year, d.month + 1, 1⟩
  else ⟨d.year + 1, 1, 1⟩

/-- Value of a non-empty digit string. -/
def digitsToNat (l : List Char) : Nat :=
  l.foldl (fun n c => n * 10 + (c.toNat - 48)) 0

def allDigits (l : List Char) : Bool :=
  !l.isEmpty && l.all (fun c => c.isDigit)

/-- Split a character list on a separator, keeping empty pieces
(the semantics of splitting a string on a one-character separator). -/
def splitSep (sep : Char) : List Char → List (List Char)
  | [] => [[]]
  | c :: cs =>
      let r := splitSep sep cs
      if c == sep then [] :: r
      else match r with
        | [] => [[c]]
        | h :: t => (c :: h) :: t

/-- Model of `datetime.strptime(s, '%Y-%m-%d')`: a four-digit year, a one- or
two-digit month 1-12 and a one- or two-digit day that exists in that month;
`none` models the raised `ValueError`. -/
def parseDate (s : String) : Option Date :=
  match splitSep '-' s.data with
  | [ys, ms, ds] =>
      if ys.length == 4 && allDigits ys &&
          (ms.length == 1 || ms.length == 2) && allDigits ms &&
          (ds.length == 1 || ds.length == 2) && allDigits ds then
        let y := digitsToNat ys
        let m := digitsToNat ms
        let d := digitsToNat ds
        if 1 ≤ m ∧ m ≤ 12 ∧ 1 ≤ d ∧ d ≤ daysInMonth y m then some ⟨y, m, d⟩
        else none
      else none
  | _ => none

/-- Model of `hour, minute = map(int, time.split(':'))`: exactly two
all-digit pieces. -/
def parseTime (s : String) : Option (Nat × Nat) :=
  match splitSep ':' s.data with
  | [hs, ms] =>
      if allDigits hs && allDigits ms then some (digitsToNat hs, digitsToNat ms)
      else none
  | _ => none

def digitChar (n : Nat) : Char := Char.ofNat (48 + n % 10)

/-- Two-digit zero-padded component (months and days are below 100). -/
def pad2 (n : Nat) : List Char := [digitChar (n / 10), digitChar n]

/-- Four-digit year; `parseDate` only produces years below 10000. -/
def pad4 (n : Nat) : List Char :=
  [digitChar (n / 1000), digitChar (n / 100), digitChar (n / 10), digitChar n]

/-- ISO formatting, `d.strftime('%Y-%m-%d')`. -/
def formatDateIso (d : Date) : String :=
  String.mk (pad4 d.year ++ '-' :: (pad2 d.month ++ '-' :: pad2 d.day))

/-- Czech formatting, `d.strftime('%d.%m.%Y')` (the display format of task due dates). -/
def formatDateCz (d : Date) : String :=
  String.mk (pad2 d.day ++ '.' :: (pad2 d.month ++ '.' :: pad4 d.year))

/-- A wall-clock date-time. -/
structure DateTimeM where
  date : Date
  hour : Nat
  minute : Nat
deriving DecidableEq, Repr

def addDaysDate (d : Date) : Nat → Date
  | 0 => d
  | n + 1 => addDaysDate (nextDay d) n

/-- Minute addition, `dt + timedelta(minutes=k)`. -/
def addMinutesTo (dt : DateTimeM) (k : Nat) : DateTimeM :=
  let total := dt.hour * 60 + dt.minute + k
  ⟨addDaysDate dt.date (total / 1440), total % 1440 / 60, total % 60⟩

/-- Chronological strict order on dates. -/
def dateLt (a b : Date) : Bool :=
  a.year < b.year ∨ (a.year = b.year ∧
    (a.month < b.month ∨ (a.month = b.month ∧ a.day < b.day)))

/-! ## `create_calendar_event` request body (google_service.py 207-276) -/

/-- A `start`/`end` field of a calendar event body: either an all-day
`{'date': ...}` (kept as the literal string the code writes) or a timed
`{'dateTime': ...}` (modelled structurally; the code writes its ISO text). -/
inductive EventTimeField where
  | date (s : String)
  | dateTime (dt : DateTimeM)
deriving DecidableEq, Repr

structure EventBody where
  summary : String
  description : String
  start : EventTimeField
  endT : EventTimeField
deriving DecidableEq, Repr

/-- The event body `create_calendar_event` inserts (google_service.py
241-276).  With a `time`, start/end are date-times `duration_minutes`
apart; without one it is an all-day event whose `start.date` is the
original `date` argument and whose `end.date` is the next day (exclusive
end).  `none` models a parse `ValueError` (caught, turned into a failure
result, nothing inserted). -/
def create_calendar_event_body (title date_str : String) (time : Option String)
    (description : Option String) (duration_minutes : Nat) : Option EventBody :=
  match parseDate date_str with
  | none => none
  | some event_date =>
      match time with
      | some t =>
          match parseTime t with
          | none => none
          | some (h, m) =>
              if h ≤ 23 ∧ m ≤ 59 then
                let start : DateTimeM := ⟨event_date, h, m⟩
                some { summary := title,
                       description := description.getD "Vytvořeno z Brain SaaS",
                       start := .dateTime start,
                       endT := .dateTime (addMinutesTo start duration_minutes) }
              else none
      | none =>
          some { summary := title,
                 description := description.getD "Vytvořeno z Brain SaaS",
                 start := .date date_str,
                 endT := .date (formatDateIso (nextDay event_date)) }

/-- C5: for a valid date and no time, the inserted body is an all-day event
with `start.date` the given date and `end.date` the date plus one day
(google_service.py 262-274, spec sections 4.5 and 8). -/
theorem create_all_day_event_spec (title date_str : String) (description : Option String)
    (duration_minutes : Nat) (d : Date) (h : parseDate date_str = some d) :
    ∃ body, create_calendar_event_body title date_str none description duration_minutes
        = some body ∧
      body.start = .date date_str ∧
      body.endT = .date (formatDateIso (nextDay d)) := by
  unfold create_calendar_event_body
  rw [h]
  exact ⟨_, rfl, rfl, rfl⟩

/-- Witness for C5: `date="2025-06-15"`, no time, gives `start.date ==
"2025-06-15"` and `end.date == "2025-06-16"`. -/
theorem create_all_day_event_spec_witness :
    ∃ body, create_calendar_event_body "Test Event" "2025-06-15" none none 30 = some body ∧
      body.start = .date "2025-06-15" ∧ body.endT = .date "2025-06-16" := by
  obtain ⟨body, h1, h2, h3⟩ :=
    create_all_day_event_spec "Test Event" "2025-06-15" none 30 ⟨2025, 6, 15⟩ (by decide)
  exact ⟨body, h1, h2, h3.trans (by decide)⟩

/-! ## `update_event` request body (google_service.py 521-580) -/

/-- An event as fetched back from the calendar provider. -/
structure GCalEvent where
  summary : String
  start : EventTimeField
  endT : EventTimeField
deriving DecidableEq, Repr

/-- Minutes in a month-aligned encoding, used only to compute the
duration `end - start` the way the source subtracts two datetimes. -/
def cumDaysBeforeMonth (y : Nat) : Nat → Nat
  | 0 => 0
  | 1 => 0
  | n + 1 => cumDaysBeforeMonth y n + daysInMonth y n

def dayNumber (d : Date) : Nat :=
  (d.year - 1) * 365 + (d.year - 1) / 4 - (d.year - 1) / 100 + (d.year - 1) / 400 +
    cumDaysBeforeMonth d.year d.month + d.day

def absMinutes (dt : DateTimeM) : Nat :=
  dayNumber dt.date * 1440 + dt.hour * 60 + dt.minute

/-- The body `update_event` writes back (google_service.py 536-570).
All-day events (`'date' in start`): only the date is replaced, and the code
assigns `new_date` to both `start.date` and `end.date`.  Timed events: the
start keeps its fields except those overridden by `new_date`/`new_time`, and
the end is the new start plus the original duration.  `none` models a raised
exception (parse failure or a timed event without an `end.dateTime`). -/
def update_event_body (ev : GCalEvent) (new_date new_time : Option String) :
    Option GCalEvent :=
  match ev.start with
  | .date _ =>
      match new_date with
      | some nd => some { ev with start := .date nd, endT := .date nd }
      | none => some ev
  | .dateTime cur =>
      let withDate : Option DateTimeM :=
        match new_date with
        | none => some cur
        | some nds =>
            match parseDate nds with
            | some nd => some ⟨nd, cur.hour, cur.minute⟩
            | none => none
      match withDate with
      | none => none
      | some dt1 =>
          let withTime : Option DateTimeM :=
            match new_time with
            | none => some dt1
            | some nts =>
                match parseTime nts with
                | some (h, m) => if h ≤ 23 ∧ m ≤ 59 then some ⟨dt1.date, h, m⟩ else none
                | none => none
          match withTime with
          | none => none
          | some newStart =>
              match ev.endT with
              | .dateTime curEnd =>
                  let dur := absMinutes curEnd - absMinutes cur
                  some { ev with start := .dateTime newStart,
                                 endT := .dateTime (addMinutesTo newStart dur) }
              | .date _ => none

/-- C10: updating an all-day event with a `new_date` writes `new_date` into
both `start.date` and `end.date`, so the updated event's end date equals its
start date instead of start date plus one day
(google_service.py 536-547). -/
theorem update_event_all_day_spec (ev : GCalEvent) (s0 nd : String)
    (nt : Option String) (hstart : ev.start = .date s0) :
    update_event_body ev (some nd) nt =
        some { ev with start := .date nd, endT := .date nd } ∧
    ∀ ev', update_event_body ev (some nd) nt = some ev' →
      ev'.start = .date nd ∧ ev'.endT = .date nd ∧ ev'.endT = ev'.start := by
  obtain ⟨sum, st, en⟩ := ev
  simp only at hstart
  subst hstart
  refine ⟨rfl, ?_⟩
  intro ev' h
  simp only [update_event_body, Option.some.injEq] at h
  subst h
  exact ⟨rfl, rfl, rfl⟩

/-- Witness for C10 at a concrete all-day event. -/
theorem update_event_all_day_spec_witness :
    update_event_body ⟨"Holiday", .date "2025-06-15", .date "2025-06-16"⟩
        (some "2025-07-01") none =
      some ⟨"Holiday", .date "2025-07-01", .date "2025-07-01"⟩ ∧
    ∀ ev', update_event_body ⟨"Holiday", .date "2025-06-15", .date "2025-06-16"⟩
        (some "2025-07-01") none = some ev' → ev'.endT = ev'.start := by
  obtain ⟨h1, h2⟩ := update_event_all_day_spec
    ⟨"Holiday", .date "2025-06-15", .date "2025-06-16"⟩ "2025-06-15" "2025-07-01" none rfl
  exact ⟨h1, fun ev' h => (h2 ev' h).2.2⟩

/-! ## Pending tasks (`get_pending_tasks`, google_service.py 412-463) -/

/-- A task as returned by the provider task list. -/
structure RawTask where
  id : String
  title : Option String
  due : Option String
  notes : Option String
deriving DecidableEq, Repr

/-- A task as rendered by `get_pending_tasks`. -/
structure TaskView where
  id : String
  title : String
  due : Option String
  is_overdue : Bool
  notes : Option String
deriving DecidableEq, Repr

/-- Per-task processing (google_service.py 432-448): the RFC 3339 `due` is
parsed (modelled by reading its leading `YYYY-MM-DD` date part),
`is_overdue` is the date-only comparison `due < today`, and the displayed
due is formatted `%d.%m.%Y`.  `none` models the parse exception, which the
enclosing handler turns into an error result. -/
def taskViewOf (today : Date) (t : RawTask) : Option TaskView :=
  match t.due with
  | none => some ⟨t.id, t.title.getD "Bez názvu", none, false, t.notes⟩
  | some ds =>
      match parseDate (String.mk (ds.data.take 10)) with
      | none => none
      | some dd =>
          some ⟨t.id, t.title.getD "Bez názvu", some (formatDateCz dd),
                dateLt dd today, t.notes⟩

def get_pending_tasks_views (today : Date) (items : List RawTask) :
    Option (List TaskView) :=
  items.mapM (taskViewOf today)

/-- Lexicographic order by code point on character lists (Python `str`
comparison of the sort keys). -/
def strLeChars : List Char → List Char → Bool
  | [], _ => true
  | _ :: _, [] => false
  | a :: as, b :: bs =>
      if a.toNat < b.toNat then true
      else if b.toNat < a.toNat then false
      else strLeChars as bs

/-- The second sort-key component: `x.get('due') or '9999'`. -/
def dueKey (t : TaskView) : List Char := (t.due.getD "9999").data

/-- The first sort-key component: `not x['is_overdue']` with `False < True`. -/
def overdueKey (t : TaskView) : Nat := if t.is_overdue then 0 else 1

/-- The sort key `(not x['is_overdue'], x.get('due') or '9999')` compared as
Python compares key tuples (google_service.py 451). -/
def taskLe (a b : TaskView) : Bool :=
  if overdueKey a < overdueKey b then true
  else if overdueKey b < overdueKey a then false
  else strLeChars (dueKey a) (dueKey b)

/-- Insert after every element that is `≤` the new one: the insertion step
of a stable ascending sort, as `list.sort` is stable. -/
def insertOrd (le : α → α → Bool) (a : α) : List α → List α
  | [] => [a]
  | b :: bs => if le b a then b :: insertOrd le a bs else a :: b :: bs

/-- Stable sort by repeated insertion in input order (the semantics of
Python's stable `list.sort(key=...)`). -/
def sortStable (le : α → α → Bool) (l : List α) : List α :=
  l.foldl (fun acc a => insertOrd le a acc) []

/-- The sorted task list `get_pending_tasks` returns. -/
def get_pending_tasks_sorted (today : Date) (items : List RawTask) :
    Option (List TaskView) :=
  (get_pending_tasks_views today items).map (sortStable taskLe)

theorem strLeChars_total : ∀ x y : List Char,
    strLeChars x y = true ∨ strLeChars y x = true := by
  intro x
  induction x with
  | nil => intro y; left; rfl
  | cons a as ih =>
      intro y
      cases y with
      | nil => right; rfl
      | cons b bs =>
          by_cases hab : a.toNat < b.toNat
          · left; simp [strLeChars, hab]
          · by_cases hba : b.toNat < a.toNat
            · right; simp [strLeChars, hba]
            · rcases ih bs with h | h
              · left; simp [strLeChars, hab, hba, h]
              · right; simp [strLeChars, hba, hab, h]

theorem strLeChars_trans : ∀ x y z : List Char,
    strLeChars x y = true → strLeChars y z = true → strLeChars x z = true := by
  intro x
  induction x with
  | nil => intro y z _ _; rfl
  | cons a as ih =>
      intro y z hxy hyz
      cases y with
      | nil => simp [strLeChars] at hxy
      | cons b bs =>
          cases z with
          | nil => simp [strLeChars] at hyz
          | cons c cs =>
              simp only [strLeChars] at hxy hyz ⊢
              by_cases hab : a.toNat < b.toNat
              · by_cases hbc : b.toNat < c.toNat
                · have hac : a.toNat < c.toNat := Nat.lt_trans hab hbc
                  simp [hac]
                · by_cases hcb : c.toNat < b.toNat
                  · simp [hbc, hcb] at hyz
                  · have hbc' : b.toNat = c.toNat := Nat.le_antisymm
                      (Nat.le_of_not_lt hcb) (Nat.le_of_not_lt hbc)
                    simp [hbc' ▸ hab]
              · by_cases hba : b.toNat < a.toNat
                · simp [hab, hba] at hxy
                · have hab' : a.toNat = b.toNat := Nat.le_antisymm
                    (Nat.le_of_not_lt hba) (Nat.le_of_not_lt hab)
                  by_cases hbc : b.toNat < c.toNat
                  · simp [hab' ▸ hbc]
                  · by_cases hcb : c.toNat < b.toNat
                    · simp [hbc, hcb] at hyz
                    · have hbc' : b.toNat = c.toNat := Nat.le_antisymm
                        (Nat.le_of_not_lt hcb) (Nat.le_of_not_lt hbc)
                      simp only [hab, hba, if_neg, ite_false] at hxy
                      simp only [hbc, hcb, if_neg, ite_false] at hyz
                      have hac : ¬ a.toNat < c.toNat := by omega
                      have hca : ¬ c.toNat < a.toNat := by omega
                      simp [hac, hca, ih bs cs hxy hyz]

theorem taskLe_total : ∀ a b : TaskView, taskLe a b = true ∨ taskLe b a = true := by
  intro a b
  unfold taskLe
  by_cases h1 : overdueKey a < overdueKey b
  · left; simp [h1]
  · by_cases h2 : overdueKey b < overdueKey a
    · right; simp [h2]
    · rcases strLeChars_total (dueKey a) (dueKey b) with h | h
      · left; simp [h1, h2, h]
      · right; simp [h1, h2, h]

theorem taskLe_trans : ∀ a b c : TaskView,
    taskLe a b = true → taskLe b c = true → taskLe a c = true := by
  intro a b c hab hbc
  unfold taskLe at *
  by_cases hab1 : overdueKey a < overdueKey b
  · by_cases hbc1 : overdueKey b < overdueKey c
    · simp [Nat.lt_trans hab1 hbc1]
    · by_cases hcb1 : overdueKey c < overdueKey b
      · simp [hbc1, hcb1] at hbc
      · have : overdueKey b = overdueKey c := Nat.le_antisymm
          (Nat.le_of_not_lt hcb1) (Nat.le_of_not_lt hbc1)
        simp [this ▸ hab1]
  · by_cases hba1 : overdueKey b < overdueKey a
    · simp [hab1, hba1] at hab
    · have hab' : overdueKey a = overdueKey b := Nat.le_antisymm
        (Nat.le_of_not_lt hba1) (Nat.le_of_not_lt hab1)
      by_cases hbc1 : overdueKey b < overdueKey c
      · simp [hab' ▸ hbc1]
      · by_cases hcb1 : overdueKey c < overdueKey b
        · simp [hbc1, hcb1] at hbc
        · have hbc' : overdueKey b = overdueKey c := Nat.le_antisymm
            (Nat.le_of_not_lt hcb1) (Nat.le_of_not_lt hbc1)
          simp only [hab1, hba1, if_neg, ite_false] at hab
          simp only [hbc1, hcb1, if_neg, ite_false] at hbc
          have hac : ¬ overdueKey a < overdueKey c := by omega
          have hca : ¬ overdueKey c < overdueKey a := by omega
          simp [hac, hca, strLeChars_trans _ _ _ hab hbc]

theorem insertOrd_mem {le : α → α → Bool} {a x : α} {l : List α}
    (h : x ∈ insertOrd le a l) : x = a ∨ x ∈ l := by
  induction l with
  | nil => simpa [insertOrd] using h
  | cons b bs ih =>
      simp only [insertOrd] at h
      by_cases hba : le b a = true
      · rw [if_pos hba] at h
        rcases List.mem_cons.mp h with h | h
        · exact Or.inr (h ▸ List.mem_cons_self b bs)
        · rcases ih h with h | h
          · exact Or.inl h
          · exact Or.inr (List.mem_cons_of_mem b h)
      · rw [if_neg hba] at h
        rcases List.mem_cons.mp h with h | h
        · exact Or.inl h
        · exact Or.inr h

theorem insertOrd_pairwise {le : α → α → Bool}
    (htot : ∀ x y, le x y = true ∨ le y x = true)
    (htrans : ∀ x y z, le x y = true → le y z = true → le x z = true)
    (a : α) : ∀ l : List α, l.Pairwise (fun x y => le x y = true) →
      (insertOrd le a l).Pairwise (fun x y => le x y = true) := by
  intro l
  induction l with
  | nil => intro _; simp [insertOrd]
  | cons b bs ih =>
      intro hp
      rw [List.pairwise_cons] at hp
      obtain ⟨hb, hbs⟩ := hp
      simp only [insertOrd]
      by_cases hba : le b a = true
      · rw [if_pos hba]
        rw [List.pairwise_cons]
        refine ⟨fun x hx => ?_, ih hbs⟩
        rcases insertOrd_mem hx with h | h
        · exact h ▸ hba
        · exact hb x h
      · rw [if_neg hba]
        have hab : le a b = true := by
          rcases htot a b with h | h
          · exact h
          · exact absurd h hba
        rw [List.pairwise_cons]
        refine ⟨fun x hx => ?_, List.pairwise_cons.mpr ⟨hb, hbs⟩⟩
        rcases List.mem_cons.mp hx with h | h
        · exact h ▸ hab
        · exact htrans a b x hab (hb x h)

theorem insertOrd_perm (le : α → α → Bool) (a : α) :
    ∀ l : List α, (insertOrd le a l).Perm (a :: l) := by
  intro l
  induction l with
  | nil => simp [insertOrd]
  | cons b bs ih =>
      simp only [insertOrd]
      by_cases hba : le b a = true
      · rw [if_pos hba]
        exact (ih.cons b).trans (List.Perm.swap a b bs)
      · rw [if_neg hba]

theorem sortStable_pairwise_aux {le : α → α → Bool}
    (htot : ∀ x y, le x y = true ∨ le y x = true)
    (htrans : ∀ x y z, le x y = true → le y z = true → le x z = true) :
    ∀ (l acc : List α), acc.Pairwise (fun x y => le x y = true) →
      (l.foldl (fun acc a => insertOrd le a acc) acc).Pairwise
        (fun x y => le x y = true) := by
  intro l
  induction l with
  | nil => intro acc h; exact h
  | cons a as ih =>
      intro acc h
      exact ih (insertOrd le a acc) (insertOrd_pairwise htot htrans a acc h)

theorem sortStable_perm_aux (le : α → α → Bool) :
    ∀ (l acc : List α),
      (l.foldl (fun acc a => insertOrd le a acc) acc).Perm (acc ++ l) := by
  intro l
  induction l with
  | nil => intro acc; simp
  | cons a as ih =>
      intro acc
      have h1 : ((a :: as).foldl (fun acc a => insertOrd le a acc) acc).Perm
          (insertOrd le a acc ++ as) := ih (insertOrd le a acc)
      have h2 : (insertOrd le a acc ++ as).Perm ((a :: acc) ++ as) :=
        (insertOrd_perm le a acc).append_right as
      exact (h1.trans h2).trans List.perm_middle.symm

/-- C3, counterexample to due-date-ascending order: with two non-overdue
tasks due 2025-01-10 and 2025-02-09, the sort key is the `%d.%m.%Y` display
string compared lexicographically, so `"09.02.2025" < "10.01.2025"` puts the
chronologically later task (2025-02-09) first
(google_service.py 440 and 451). -/
theorem get_pending_tasks_sort_not_chronological :
    get_pending_tasks_sorted ⟨2024, 12, 1⟩
        [⟨"t1", some "Nakoupit", some "2025-01-10T00:00:00.000Z", none⟩,
         ⟨"t2", some "Uklidit", some "2025-02-09T00:00:00.000Z", none⟩] =
      some [⟨"t2", "Uklidit", some "09.02.2025", false, none⟩,
            ⟨"t1", "Nakoupit", some "10.01.2025", false, none⟩] ∧
    dateLt ⟨2025, 1, 10⟩ ⟨2025, 2, 9⟩ = true := by
  decide

/-- C3 as amended: `get_pending_tasks` returns a permutation of the task
views sorted by the key `(not is_overdue, formatted due or "9999")`: all
overdue tasks precede all non-overdue ones, and within each group tasks are
in ascending lexicographic order of their `%d.%m.%Y`-formatted due string,
tasks without a due date (key `"9999"`) last; this coincides with due-date
ascending only where the day-first string order does
(google_service.py 429-453, spec section 4.6). -/
theorem get_pending_tasks_sorted_spec (today : Date) (items : List RawTask)
    (out vs : List TaskView)
    (hout : get_pending_tasks_sorted today items = some out)
    (hvs : get_pending_tasks_views today items = some vs) :
    out.Pairwise (fun a b => taskLe a b = true) ∧
    out.Pairwise (fun a b => b.is_overdue = true → a.is_overdue = true) ∧
    out.Perm vs := by
  unfold get_pending_tasks_sorted at hout
  rw [hvs] at hout
  simp only [Option.map_some', Option.some.injEq] at hout
  subst hout
  have hpair := sortStable_pairwise_aux taskLe_total taskLe_trans vs []
    List.Pairwise.nil
  refine ⟨hpair, ?_, by simpa using sortStable_perm_aux taskLe vs []⟩
  refine hpair.imp ?_
  intro a b hab hb
  by_contra ha
  have ha' : a.is_overdue = false := by
    cases h : a.is_overdue
    · rfl
    · exact absurd h ha
  unfold taskLe overdueKey at hab
  rw [ha', hb] at hab
  simp at hab

/-- Witness for the amended C3 at a concrete input: an overdue task sorts
first, the no-due task sorts last. -/
theorem get_pending_tasks_sorted_spec_witness :
    get_pending_tasks_sorted ⟨2025, 6, 10⟩
        [⟨"a", some "Bez data", none, none⟩,
         ⟨"b", some "Stary", some "2025-06-01T00:00:00.000Z", none⟩,
         ⟨"c", some "Novy", some "2025-06-20T00:00:00.000Z", none⟩] =
      some [⟨"b", "Stary", some "01.06.2025", true, none⟩,
            ⟨"c", "Novy", some "20.06.2025", false, none⟩,
            ⟨"a", "Bez data", none, false, none⟩] ∧
    ([⟨"b", "Stary", some "01.06.2025", true, none⟩,
      ⟨"c", "Novy", some "20.06.2025", false, none⟩,
      (⟨"a", "Bez data", none, false, none⟩ : TaskView)]).Pairwise
        (fun a b => taskLe a b = true) := by
  refine ⟨by decide, ?_⟩
  have h := get_pending_tasks_sorted_spec ⟨2025, 6, 10⟩
    [⟨"a", some "Bez data", none, none⟩,
     ⟨"b", some "Stary", some "2025-06-01T00:00:00.000Z", none⟩,
     ⟨"c", some "Novy", some "2025-06-20T00:00:00.000Z", none⟩]
    [⟨"b", "Stary", some "01.06.2025", true, none⟩,
     ⟨"c", "Novy", some "20.06.2025", false, none⟩,
     ⟨"a", "Bez data", none, false, none⟩]
    [⟨"a", "Bez data", none, false, none⟩,
     ⟨"b", "Stary", some "01.06.2025", true, none⟩,
     ⟨"c", "Novy", some "20.06.2025", false, none⟩]
    (by decide) (by decide)
  exact h.1

/-! ## `move_event_to_calendar` (google_service.py 644-706) -/

/-- A call against the provider's events API. -/
inductive ProviderCall where
  | getEvent (calendarId eventId : String)
  | insertEvent (calendarId : String)
  | deleteEvent (calendarId eventId : String)
deriving DecidableEq, Repr

def ProviderCall.isInsert : ProviderCall → Bool
  | .insertEvent _ => true
  | _ => false

def ProviderCall.isDelete : ProviderCall → Bool
  | .deleteEvent _ _ => true
  | _ => false

/-- Result dict of `move_event_to_calendar`. -/
structure MoveResult where
  success : Bool
  error : Option String
deriving DecidableEq, Repr

/-- The "already there" error message (google_service.py 671). -/
def alreadyThereMsg (target_calendar_type : String) : String :=
  "Událost už je v kalendáři " ++
    (if target_calendar_type == "work" then "Práce" else "Osobní")

/-- Function `move_event_to_calendar` (google_service.py 644-706), modelled as the
result together with the ordered trace of provider events-API calls.
`calendar_ids` is the registry mapping returned by
`get_or_create_calendars`.  Missing or falsy target id fails with no call;
source equal to target fails with the "already there" message and no call;
otherwise the event is fetched from the source, inserted into the target,
and only then deleted from the source. -/
def move_event_to_calendar (calendar_ids : List (String × String))
    (event_id source_calendar_id target_calendar_type : String) :
    MoveResult × List ProviderCall :=
  match calendar_ids.find? (fun p => p.1 == target_calendar_type) with
  | none =>
      (⟨false, some ("Kalendář '" ++ target_calendar_type ++ "' nenalezen")⟩, [])
  | some p =>
      let target_calendar_id := p.2
      if target_calendar_id == "" then
        (⟨false, some ("Kalendář '" ++ target_calendar_type ++ "' nenalezen")⟩, [])
      else if source_calendar_id == target_calendar_id then
        (⟨false, some (alreadyThereMsg target_calendar_type)⟩, [])
      else
        (⟨true, none⟩,
         [.getEvent source_calendar_id event_id,
          .insertEvent target_calendar_id,
          .deleteEvent source_calendar_id event_id])

/-- C6: when the source calendar equals the resolved target calendar, the
move returns a failure result (no exception) carrying the "already there"
error, and the trace contains no insert and no delete
(google_service.py 662-672, spec sections 4.5 and 8). -/
theorem move_event_same_calendar_spec (calendar_ids : List (String × String))
    (event_id source target_type : String) (p : String × String)
    (hfind : calendar_ids.find? (fun q => q.1 == target_type) = some p)
    (hne : p.2 ≠ "") (hsame : source = p.2) :
    (move_event_to_calendar calendar_ids event_id source target_type).1.success
        = false ∧
    (move_event_to_calendar calendar_ids event_id source target_type).1.error
        = some (alreadyThereMsg target_type) ∧
    (∀ c ∈ (move_event_to_calendar calendar_ids event_id source target_type).2,
      c.isInsert = false ∧ c.isDelete = false) := by
  have hr : move_event_to_calendar calendar_ids event_id source target_type =
      (⟨false, some (alreadyThereMsg target_type)⟩, []) := by
    unfold move_event_to_calendar
    rw [hfind]
    simp only [hsame]
    rw [if_neg (by simpa using hne), if_pos (by simp)]
  rw [hr]
  exact ⟨rfl, rfl, by simp⟩

/-- Witness for C6 at an explicit registry with source already equal to the
resolved work calendar. -/
theorem move_event_same_calendar_spec_witness :
    (move_event_to_calendar [("work", "calW"), ("personal", "calP")]
        "ev1" "calW" "work").1.success = false ∧
    (move_event_to_calendar [("work", "calW"), ("personal", "calP")]
        "ev1" "calW" "work").1.error = some (alreadyThereMsg "work") ∧
    (∀ c ∈ (move_event_to_calendar [("work", "calW"), ("personal", "calP")]
        "ev1" "calW" "work").2, c.isInsert = false ∧ c.isDelete = false) :=
  move_event_same_calendar_spec [("work", "calW"), ("personal", "calP")]
    "ev1" "calW" "work" ("work", "calW") (by decide) (by decide) rfl

/-- Every trace of `move_event_to_calendar` is either empty or exactly
get-then-insert-then-delete. -/
theorem move_event_trace_cases (calendar_ids : List (String × String))
    (event_id source target_type : String) :
    (move_event_to_calendar calendar_ids event_id source target_type).2 = [] ∨
    ∃ tid, (move_event_to_calendar calendar_ids event_id source target_type).2 =
      [.getEvent source event_id, .insertEvent tid, .deleteEvent source event_id] := by
  unfold move_event_to_calendar
  cases calendar_ids.find? (fun p => p.1 == target_type) with
  | none => left; rfl
  | some p =>
      dsimp only
      by_cases h1 : (p.2 == "") = true
      · left; rw [if_pos h1]
      · rw [if_neg h1]
        by_cases h2 : (source == p.2) = true
        · left; rw [if_pos h2]
        · right; exact ⟨p.2, by rw [if_neg h2]⟩

/-- C7: in every trace of `move_event_to_calendar`, any delete of the
original is strictly preceded by the insert of the copy, so a failure
between the two steps leaves a duplicate, never a lost event
(google_service.py 688-692, spec section 4.5). -/
theorem move_event_insert_before_delete (calendar_ids : List (String × String))
    (event_id source target_type : String) (j : Nat) (c : ProviderCall)
    (hj : (move_event_to_calendar calendar_ids event_id source target_type).2[j]?
        = some c)
    (hdel : c.isDelete = true) :
    ∃ i < j, ∃ c' , (move_event_to_calendar calendar_ids event_id source
        target_type).2[i]? = some c' ∧ c'.isInsert = true := by
  rcases move_event_trace_cases calendar_ids event_id source target_type with
    h | ⟨tid, h⟩
  · rw [h] at hj
    simp at hj
  · rw [h] at hj ⊢
    rcases j with _ | _ | _ | n
    · simp only [List.getElem?_cons_zero, Option.some.injEq] at hj
      subst hj
      simp [ProviderCall.isDelete] at hdel
    · simp only [List.getElem?_cons_succ, List.getElem?_cons_zero,
        Option.some.injEq] at hj
      subst hj
      simp [ProviderCall.isDelete] at hdel
    · exact ⟨1, by omega, .insertEvent tid, rfl, rfl⟩
    · simp at hj

/-- Witness for C7 at a concrete move between distinct calendars: the trace
is get, insert, delete, and the delete at index 2 is preceded by the insert
at index 1. -/
theorem move_event_insert_before_delete_witness :
    ∃ i < 2, ∃ c' , (move_event_to_calendar [("work", "calW"), ("personal", "calP")]
        "ev1" "calP" "work").2[i]? = some c' ∧ c'.isInsert = true :=
  move_event_insert_before_delete [("work", "calW"), ("personal", "calP")]
    "ev1" "calP" "work" 2 (.deleteEvent "calP" "ev1") (by decide) rfl

/-! ## The intent router (`process_with_google`, telegram.py 83-445) -/

/-- The intent record extracted by the classifier; every field is read with
`.get(...)` and may be absent. -/
structure IntentRecord where
  intent : Option String
  title : Option String
  date : Option String
  time : Option String
  description : Option String
  category : Option String
  query_type : Option String
  target_event : Option String
  new_date : Option String
  new_time : Option String
  target_calendar : Option String
deriving DecidableEq, Repr

/-- Python truthiness of an optional string (`None` and `""` are falsy). -/
def truthy (o : Option String) : Bool :=
  match o with
  | some s => !s.isEmpty
  | none => false

/-- An externally visible effect of one routed intent: a Google/notes
provider call (by operation name) or an outbound Telegram message. -/
inductive Effect where
  | providerCall (name : String)
  | sendText
  | sendVoice
deriving DecidableEq, Repr

/-- Outcomes of the provider calls a route makes, abstracting the network:
success flags of each operation and the number of events `search_event`
returns. -/
structure RouterEnv where
  createEventOk : Bool
  createTaskOk : Bool
  getEventsOk : Bool
  getTasksOk : Bool
  searchOk : Bool
  searchCount : Nat
  moveOk : Bool
  updateOk : Bool
  deleteOk : Bool
deriving DecidableEq, Repr

/-- The dispatch chain of `process_with_google` (telegram.py 104-445) at the
granularity of provider calls and outbound messages.  Guards mirror the
source: `EVENT` additionally requires a truthy `date`, `UPDATE_EVENT` and
`DELETE_EVENT` a truthy `target_event`; an intent matching no branch
(including `COMPLETE_TASK` and `UNKNOWN`, which this handler does not
dispatch) produces no effect. -/
def process_with_google_effects (r : IntentRecord) (env : RouterEnv) : List Effect :=
  if r.intent == some "EVENT" && truthy r.date then
    .providerCall "create_calendar_event" ::
      (if env.createEventOk then [.sendText] else [])
  else if r.intent == some "TODO" then
    .providerCall "create_task" :: (if env.createTaskOk then [.sendText] else [])
  else if r.intent == some "NOTE" then
    [.providerCall "note_post", .sendText]
  else if r.intent == some "QUERY_CALENDAR" then
    .providerCall "get_events" :: (if env.getEventsOk then [.sendText] else [])
  else if r.intent == some "QUERY_TASKS" then
    .providerCall "get_pending_tasks" :: (if env.getTasksOk then [.sendText] else [])
  else if r.intent == some "UPDATE_EVENT" && truthy r.target_event then
    .providerCall "search_event" ::
      (if env.searchOk && env.searchCount != 0 then
        (if env.searchCount == 1 then
          (if truthy r.target_calendar then
            [.providerCall "move_event_to_calendar", .sendText]
           else
            .providerCall "update_event" ::
              (if env.updateOk then [.sendText] else []))
         else [.sendText])
       else [.sendText])
  else if r.intent == some "DELETE_EVENT" && truthy r.target_event then
    .providerCall "search_event" ::
      (if env.searchOk && env.searchCount != 0 then
        (if env.searchCount == 1 then
          .providerCall "delete_event" :: (if env.deleteOk then [.sendText] else [])
         else [.sendText])
       else [.sendText])
  else if r.intent == some "SUMMARY" then
    [.providerCall "get_events", .providerCall "get_pending_tasks",
     .sendText, .sendVoice]
  else []

/-- C8: an `EVENT` intent with no date is silently skipped: whatever the
provider outcomes, the route performs no provider call and sends no message
(telegram.py 106, spec sections 4.7 and 7). -/
theorem event_without_date_silent (r : IntentRecord) (env : RouterEnv)
    (hint : r.intent = some "EVENT") (hdate : r.date = none) :
    process_with_google_effects r env = [] := by
  unfold process_with_google_effects
  rw [hint, hdate]
  simp [truthy]

/-- Witness for C8 at a concrete record and environment. -/
theorem event_without_date_silent_witness :
    process_with_google_effects
      ⟨some "EVENT", some "Oběd", none, some "12:00", none, none, none, none,
       none, none, none⟩
      ⟨true, true, true, true, true, 1, true, true, true⟩ = [] :=
  event_without_date_silent
    ⟨some "EVENT", some "Oběd", none, some "12:00", none, none, none, none,
     none, none, none⟩
    ⟨true, true, true, true, true, 1, true, true, true⟩ rfl rfl

/-! ## The `COMPLETE_TASK` route -/

/-- A pending task as the `COMPLETE_TASK` route consumes it. -/
structure PendingTask where
  id : String
  title : String
deriving DecidableEq, Repr

/-- Outcome of routing a `COMPLETE_TASK` intent. -/
inductive CompleteTaskOutcome where
  | completed (t : PendingTask) (msg : String)
  | clarify (shown : List PendingTask) (msg : String)
  | notFound (msg : String)
deriving DecidableEq, Repr

/-- Modelled from the spec: the filter step of the `COMPLETE_TASK` branch of
the intent router, which is absent from the source snapshot of
`process_with_google` (it exists only in spec section 4.7 and in
`tests/test_telegram.py`): pending tasks whose normalised title contains the
normalised `target_event` as a substring. -/
def completeTaskMatches (target : String) (pending : List PendingTask) :
    List PendingTask :=
  pending.filter
    (fun t => isSubstring (normalize_text target).data (normalize_text t.title).data)

/-- Modelled from the spec: the `COMPLETE_TASK` branch of the intent router
(absent from the source snapshot, described by spec section 4.7 and pinned by
`tests/test_telegram.py`): list pending tasks, filter by normalised
substring; one match completes it and renders success naming the task,
several matches render at most 5 candidates and ask to disambiguate, no
match renders a not-found message naming the query. -/
def routeCompleteTask (target : String) (pending : List PendingTask) :
    CompleteTaskOutcome :=
  match completeTaskMatches target pending with
  | [] => .notFound ("❌ Nenašel jsem úkol obsahující '" ++ target ++ "'")
  | [t] => .completed t ("✅ Úkol **" ++ t.title ++ "** splněn!")
  | ms => .clarify (ms.take 5)
      ("🔍 Nalezeno " ++ Nat.repr ms.length ++
        " úkolů, upřesni prosím který myslíš.")

/-- C1: the `COMPLETE_TASK` route filters the pending tasks by normalised
substring containment of `target_event`; a unique match is completed with a
success message naming it, several matches produce a clarification listing
at most 5 candidates, and no match produces a not-found message
(spec sections 4.7 and 8, tests/test_telegram.py). -/
theorem routeCompleteTask_spec (target : String) (pending : List PendingTask) :
    (∀ t, t ∈ completeTaskMatches target pending ↔ t ∈ pending ∧
      isSubstring (normalize_text target).data (normalize_text t.title).data = true) ∧
    (∀ t, completeTaskMatches target pending = [t] →
      routeCompleteTask target pending =
        .completed t ("✅ Úkol **" ++ t.title ++ "** splněn!")) ∧
    (2 ≤ (completeTaskMatches target pending).length →
      ∃ msg, routeCompleteTask target pending =
        .clarify ((completeTaskMatches target pending).take 5) msg ∧
        ((completeTaskMatches target pending).take 5).length ≤ 5) ∧
    (completeTaskMatches target pending = [] →
      routeCompleteTask target pending =
        .notFound ("❌ Nenašel jsem úkol obsahující '" ++ target ++ "'")) := by
  refine ⟨fun t => List.mem_filter.trans (by simp), ?_, ?_, ?_⟩
  · intro t h
    unfold routeCompleteTask
    rw [h]
  · intro h
    unfold routeCompleteTask
    rcases hm : completeTaskMatches target pending with _ | ⟨a, _ | ⟨b, ms⟩⟩
    · rw [hm] at h; simp at h
    · rw [hm] at h; simp at h
    · exact ⟨_, rfl, List.length_take_le 5 _⟩
  · intro h
    unfold routeCompleteTask
    rw [h]

/-- Witness for C1 at the concrete scenario of the repository's tests:
the diacritics-free query `"schuzku"` uniquely matches the pending task
`"Připravit schůzku"` and completes it. -/
theorem routeCompleteTask_spec_witness :
    routeCompleteTask "schuzku" [⟨"task1", "Připravit schůzku"⟩] =
      .completed ⟨"task1", "Připravit schůzku"⟩
        ("✅ Úkol **" ++ "Připravit schůzku" ++ "** splněn!") :=
  (routeCompleteTask_spec "schuzku" [⟨"task1", "Připravit schůzku"⟩]).2.1
    ⟨"task1", "Připravit schůzku"⟩ (by decide)

/-! ## Notification deduplication (notification_service.py 200-211) -/

/-- Deduplication key, `f"{user_id}:{event_id}"`. -/
def notifKey (user_id event_id : String) : String :=
  user_id ++ ":" ++ event_id

/-- Function `_mark_notified` (notification_service.py 209-211): the source stores
plain keys in a Python `set` with `add`, modelled as a duplicate-free list;
there are no timestamps, no size threshold and no eviction of any kind. -/
def mark_notified (notified : List String) (user_id event_id : String) :
    List String :=
  let k := notifKey user_id event_id
  if k ∈ notified then notified else k :: notified

/-- Function `_already_notified` (notification_service.py 204-206). -/
def already_notified (notified : List String) (user_id event_id : String) : Bool :=
  notifKey user_id event_id ∈ notified

/-- A deduplication state holding 101 old entries, more than any fixed
bound the eviction was supposed to respect. -/
def overfullNotified : List String :=
  (List.range 101).map (fun i => "u" ++ Nat.repr i ++ ":e" ++ Nat.repr i)

set_option maxRecDepth 8192 in
/-- C2, evaluation at the failing input: marking a fresh pair into a
deduplication state that already holds 101 entries keeps every old entry
and grows the state to 102 — the source set has no timestamps and never
evicts, so the map is unbounded, contradicting the specified
overflow eviction of entries older than 24 hours
(notification_service.py 200-211 against spec section 4.9 and
tests/test_notification_service.py).  The first half of the claim
(`alreadyNotified` after `markNotified`) does hold. -/
theorem mark_notified_never_evicts :
    (mark_notified overfullNotified "userX" "eventY").length =
      overfullNotified.length + 1 ∧
    overfullNotified.length = 101 ∧
    "u0:e0" ∈ mark_notified overfullNotified "userX" "eventY" ∧
    (∀ k ∈ overfullNotified, k ∈ mark_notified overfullNotified "userX" "eventY") ∧
    already_notified (mark_notified overfullNotified "userX" "eventY")
      "userX" "eventY" = true := by
  decide

end BrainSaas
